import Mathlib

/-!
Shallow embedding of the mcp-rs server core: the JSON-RPC protocol
dispatcher of `crates/offeryn-core/src/server/mod.rs` and the SSE
transport of `src/transport/sse.rs` (session table, message submission
path and the connection reaper), together with proofs about the
behaviour of those two pieces.

Machine integers are modelled as `Nat`/`Int`; fallible Rust code
returning `Result` is modelled with `Except`.  The asynchronous pieces
(awaits, locks) are sequential in the source at the granularity the
properties are about, so the embedding is plain state passing.
-/

namespace Mcp

/-- JSON values, as `serde_json::Value`.  Numbers are modelled as
integers; the requests and responses the embedded code handles carry no
floating-point payloads. -/
inductive Json where
  | null
  | bool (b : Bool)
  | num (n : Int)
  | str (s : String)
  | arr (items : List Json)
  | obj (fields : List (String × Json))

/-- Binding of a key in a JSON object (keys of a parsed
`serde_json::Map` are unique, so first match suffices). -/
def jsonLookup : List (String × Json) → String → Option Json
  | [], _ => none
  | p :: ps, k => if p.1 = k then some p.2 else jsonLookup ps k

/-- Field access on a JSON object value. -/
def jsonField (j : Json) (k : String) : Option Json :=
  match j with
  | .obj fields => jsonLookup fields k
  | _ => none

/-- The value of `serde_json::Value::as_u64`: the number when it is a
non-negative integer representable in 64 bits, otherwise `none`. -/
def Json.asU64 : Json → Option Nat
  | .num n => if 0 ≤ n ∧ n < 2 ^ 64 then some n.toNat else none
  | _ => none

/-- Request/response correlation ids, as `jsonrpc_core::Id`. -/
inductive Id where
  | null
  | num (n : Nat)
  | str (s : String)
deriving DecidableEq

/-- Call parameters, as `jsonrpc_core::Params`. -/
inductive Params where
  | none
  | arr (xs : List Json)
  | map (fields : List (String × Json))

/-- A method call, as `jsonrpc_core::MethodCall` (the `jsonrpc` version
tag carries no information and is omitted). -/
structure MethodCall where
  method : String
  params : Params
  id : Id

/-- A notification, as `jsonrpc_core::Notification`. -/
structure Notification where
  method : String
  params : Params

/-- A single call, as `jsonrpc_core::Call`; `invalid` keeps the id of an
unparsable call. -/
inductive Call where
  | methodCall (c : MethodCall)
  | notification (n : Notification)
  | invalid (id : Id)

/-- A request, as `jsonrpc_core::Request`. -/
inductive Request where
  | single (c : Call)
  | batch (cs : List Call)

/-- JSON-RPC error codes, as `jsonrpc_core::ErrorCode`. -/
inductive ErrorCode where
  | parseError
  | invalidRequest
  | methodNotFound
  | invalidParams
  | internalError
  | serverError (code : Int)
deriving DecidableEq

/-- The fixed description attached by
`jsonrpc_core::ErrorCode::description`. -/
def ErrorCode.description : ErrorCode → String
  | .parseError => "Parse error"
  | .invalidRequest => "Invalid request"
  | .methodNotFound => "Method not found"
  | .invalidParams => "Invalid params"
  | .internalError => "Internal error"
  | .serverError _ => "Server error"

/-- A structured JSON-RPC error, as `jsonrpc_core::Error`. -/
structure JsonRpcError where
  code : ErrorCode
  message : String
  data : Option Json

/-- `jsonrpc_core::Error::new`: the code together with its fixed
description and no data. -/
def JsonRpcError.new (code : ErrorCode) : JsonRpcError :=
  ⟨code, code.description, none⟩

/-- `jsonrpc_core::Error::method_not_found`. -/
def JsonRpcError.method_not_found : JsonRpcError :=
  JsonRpcError.new .methodNotFound

/-- A single response envelope, as `jsonrpc_core::Output`: a success or
a failure, each carrying the correlation id. -/
inductive Output where
  | success (result : Json) (id : Id)
  | failure (error : JsonRpcError) (id : Id)

/-- The correlation id carried by an envelope. -/
def outputId : Output → Id
  | .success _ i => i
  | .failure _ i => i

/-- A response, as `jsonrpc_core::Response`. -/
inductive Response where
  | single (o : Output)
  | batch (os : List Output)

/-- Modelled from the spec: the crate-local `McpError` type, whose own
source file is not among the embedded files.  Only the variants
`handle_request` produces are modelled. -/
inductive McpError where
  | invalidRequest
  | invalidParams
  | methodNotFound
deriving DecidableEq

/-- Modelled from the spec: the `Into<jsonrpc_core::Error>` conversion
for `McpError`, mapping each variant to the JSON-RPC error with the
matching fixed code (spec section 7: protocol-level errors carry a fixed
error code). -/
def McpError.intoJsonRpc : McpError → JsonRpcError
  | .invalidRequest => JsonRpcError.new .invalidRequest
  | .invalidParams => JsonRpcError.new .invalidParams
  | .methodNotFound => JsonRpcError.new .methodNotFound

/-- One content item produced by a tool, as `offeryn_types::ToolContent`:
a text payload. -/
structure ToolContent where
  text : String

/-- A tool invocation result, as `offeryn_types::ToolResult`: ordered
content items plus a boolean error flag. -/
structure ToolResult where
  content : List ToolContent
  is_error : Bool

/-- A registered tool, as a `Box<dyn McpTool>` trait object: name,
description, input schema and an execution function.  Execution is
modelled as a pure function from the argument object to either a result
or an error message (the display form of the tool's error). -/
structure McpTool where
  name : String
  description : String
  input_schema : Json
  execute : Json → Except String ToolResult

/-- The listing entry built by `tools/list`, as `offeryn_types::Tool`. -/
structure Tool where
  name : String
  description : String
  input_schema : Json

/-- Parameters of `tools/call`, as `offeryn_types::CallToolRequest`: a
required `name` and an optional `arguments` object. -/
structure CallToolRequest where
  name : String
  arguments : Option (List (String × Json))

/-- Modelled from the spec: the derived serde deserializer for
`CallToolRequest` (its source is not among the embedded files): `name`
must be present and a string; `arguments`, when present and non-null,
must be an object. -/
def parseCallToolRequest (fields : List (String × Json)) :
    Option CallToolRequest :=
  match jsonLookup fields "name" with
  | some (.str n) =>
      match jsonLookup fields "arguments" with
      | Option.none => some ⟨n, none⟩
      | some (.obj a) => some ⟨n, some a⟩
      | some .null => some ⟨n, none⟩
      | some _ => none
  | _ => none

/-- Response content items, as `offeryn_types::Content`. -/
inductive Content where
  | text (text : String)

/-- Wire shape of one content item (spec section 6): a typed text
entry. -/
def encodeContent : Content → Json
  | .text t => .obj [("type", .str "text"), ("text", .str t)]

/-- The structured tool-call result, as `offeryn_types::CallToolResult`. -/
structure CallToolResult where
  content : List Content
  is_error : Option Bool

/-- Wire shape of a tool-call result (spec section 6): the content array
and the error flag. -/
def encodeCallToolResult (r : CallToolResult) : Json :=
  .obj [("content", .arr (r.content.map encodeContent)),
        ("is_error",
          match r.is_error with
          | some b => .bool b
          | Option.none => .null)]

/-- Wire shape of one `tools/list` entry. -/
def encodeTool (t : Tool) : Json :=
  .obj [("name", .str t.name), ("description", .str t.description),
        ("input_schema", t.input_schema)]

/-- Wire shape of the `tools/list` result: the tool entries and the
reserved, always-null pagination token. -/
def encodeListToolsResult (ts : List Tool) : Json :=
  .obj [("tools", .arr (ts.map encodeTool)), ("next_page_token", .null)]

/-- The tool registry: the `HashMap<String, Box<dyn McpTool>>` behind
the server's mutex, modelled as an association list with unique keys.
The hash map's iteration order is unspecified; the model fixes insertion
order, on which no proved property depends. -/
abbrev Registry := List (String × McpTool)

/-- `HashMap::insert` keyed by the tool's name: replace the binding when
the key is present, append otherwise. -/
def insertTool : Registry → McpTool → Registry
  | [], t => [(t.name, t)]
  | p :: r, t => if p.1 = t.name then (t.name, t) :: r else p :: insertTool r t

/-- `HashMap::get` on the registry. -/
def lookupTool : Registry → String → Option McpTool
  | [], _ => none
  | p :: r, n => if p.1 = n then some p.2 else lookupTool r n

/-- `McpServer::register_tool` (mod.rs, lines 43-47): one insert keyed
by the tool's name. -/
def register_tool (r : Registry) (t : McpTool) : Registry :=
  insertTool r t

/-- `McpServer::with_tool` (mod.rs, lines 26-31): same insert. -/
def with_tool (r : Registry) (t : McpTool) : Registry :=
  insertTool r t

/-- `McpServer::with_tools` (mod.rs, lines 33-41): inserts in iteration
order. -/
def with_tools (r : Registry) (ts : List McpTool) : Registry :=
  ts.foldl insertTool r

/-- `McpServer::register_tools` (mod.rs, lines 49-59): inserts the
provider's tools in iteration order. -/
def register_tools (r : Registry) (ts : List McpTool) : Registry :=
  ts.foldl insertTool r

/-- The server state: name, version and the registry (`McpServer`,
mod.rs lines 11-15; the mutex around the map is irrelevant to the
sequential properties proved here). -/
structure McpServer where
  name : String
  version : String
  tools : Registry

/-- Modelled from the spec: the protocol version constant
`LATEST_PROTOCOL_VERSION` of `offeryn_types` (source not embedded; the
exact string is irrelevant to every property below). -/
def LATEST_PROTOCOL_VERSION : String := "2024-11-05"

/-- The `tools/list` entries built from the registry values (mod.rs,
lines 133-140). -/
def listTools (r : Registry) : List Tool :=
  r.map fun p => ⟨p.2.name, p.2.description, p.2.input_schema⟩

/-- Wire shape of the `initialize` result (mod.rs, lines 101-114):
protocol version, per-tool capability flags, server identity and the
fixed instructions string. -/
def encodeInitResult (s : McpServer) : Json :=
  .obj [("protocol_version", .str LATEST_PROTOCOL_VERSION),
        ("capabilities",
          .obj [("tools", .obj (s.tools.map fun p => (p.1, Json.bool true)))]),
        ("server_info",
          .obj [("name", .str s.name), ("version", .str s.version)]),
        ("instructions", .str "Use tools/list to see available tools")]

/-- The argument object handed to the tool (mod.rs, lines 187-190): the
provided object, or the empty object when `arguments` is absent. -/
def argsJson : Option (List (String × Json)) → Json
  | some a => .obj a
  | Option.none => .obj []

/-- Body of `McpServer::handle_request` once the request has been
destructured into id, method and params (mod.rs, lines 98-246). -/
def dispatchCall (s : McpServer) (id : Id) (method : String)
    (params : Params) : Except McpError Response :=
  if method = "initialize" then
    .ok (.single (.success (encodeInitResult s) id))
  else if method = "tools/list" then
    .ok (.single (.success (encodeListToolsResult (listTools s.tools)) id))
  else if method = "tools/call" then
    match params with
    | .map fields =>
        match parseCallToolRequest fields with
        | Option.none => .error .invalidParams
        | some ctr =>
            match lookupTool s.tools ctr.name with
            | Option.none => .error .methodNotFound
            | some tool =>
                match tool.execute (argsJson ctr.arguments) with
                | .ok result =>
                    .ok (.single (.success
                      (encodeCallToolResult
                        ⟨result.content.map fun c => Content.text c.text,
                         some result.is_error⟩) id))
                | .error _ =>
                    .ok (.single (.failure
                      (JsonRpcError.new (.serverError (-32000))) id))
    | _ => .error .invalidParams
  else
    .ok (.single (.failure JsonRpcError.method_not_found id))

/-- `McpServer::handle_request` (mod.rs, lines 61-256): a single method
call is dispatched; a notification is answered with an empty success
envelope carrying the placeholder id 0; anything else (a batch or an
invalid call) is answered with an invalid-request failure envelope
carrying id 0.  Parameter errors and unknown tools short-circuit into
`Except.error` through the question-mark operator. -/
def handle_request (s : McpServer) (request : Request) :
    Except McpError Response :=
  match request with
  | .single (.methodCall c) => dispatchCall s c.id c.method c.params
  | .single (.notification _) =>
      .ok (.single (.success (.obj []) (.num 0)))
  | _ =>
      .ok (.single (.failure (McpError.intoJsonRpc .invalidRequest) (.num 0)))

/-- A session's push channel (`tokio::sync::mpsc::Sender`): the one
observable the embedded code probes is whether the receiving side is
gone. -/
structure Channel where
  is_closed : Bool
deriving DecidableEq

/-- The session table `SseTransport.connections`: session id to push
channel, modelled as an association list (ids are freshly generated
UUIDs, hence unique). -/
abbrev Connections := List (String × Channel)

/-- `HashMap` lookup on the session table. -/
def lookupChannel : Connections → String → Option Channel
  | [], _ => none
  | p :: ps, k => if p.1 = k then some p.2 else lookupChannel ps k

/-- An event delivered onto a session's stream.  The payload is kept as
the response envelope itself; its JSON text is the wire format, which
the spec treats as a given. -/
structure SseEvent where
  event : String
  data : Response

/-- HTTP statuses the submission path can reject with. -/
inductive HttpStatus where
  | badRequest
  | notFound
  | internalServerError
deriving DecidableEq

/-- Whether a response is a single success envelope (the push condition
of sse.rs, line 196). -/
def isSingleSuccess : Response → Bool
  | .single (.success _ _) => true
  | _ => false

/-- `SseTransport::message_handler` (sse.rs, lines 153-236).  The
dispatcher is passed as a function (the handler calls the server's
`handle_request` under its lock); the value is the HTTP-level outcome
paired with the list of events actually delivered onto the session's
channel.  A send on a channel whose consumer is gone fails and is
surfaced as an internal server error; a send on a live channel
succeeds. -/
def message_handler (conns : Connections)
    (dispatch : Request → Except McpError Response)
    (session_id : String) (request : Request) :
    Except HttpStatus Response × List SseEvent :=
  match lookupChannel conns session_id with
  | Option.none => (.error .notFound, [])
  | some tx =>
      match dispatch request with
      | .error _ => (.error .internalServerError, [])
      | .ok response =>
          if isSingleSuccess response then
            if tx.is_closed then (.error .internalServerError, [])
            else (.ok response, [⟨"message", response⟩])
          else (.ok response, [])

/-- The decoded POST body, as `JsonRpcRequestWrapper` (sse.rs, lines
21-27). -/
structure JsonRpcRequestWrapper where
  jsonrpc : String
  id : Option Json
  method : String
  params : Option Json

/-- Conversion of the body's params (sse.rs, lines 68-74): kept only
when they are a JSON object. -/
def wrapperParams : Option Json → Params
  | some (.obj fields) => .map fields
  | some _ => .none
  | Option.none => .none

/-- Conversion of the body's id (sse.rs, line 80): a missing id becomes
null, a present id is coerced with `as_u64().unwrap_or(0)`. -/
def wrapperId : Option Json → Id
  | Option.none => .null
  | some v => .num ((Json.asU64 v).getD 0)

/-- Construction of the dispatched request (sse.rs, lines 76-81): every
submission is wrapped as a single method call. -/
def wrapperToRequest (w : JsonRpcRequestWrapper) : Request :=
  .single (.methodCall ⟨w.method, wrapperParams w.params, wrapperId w.id⟩)

/-- Query-parameter lookup on the POST route. -/
def getParam : List (String × String) → String → Option String
  | [], _ => none
  | p :: ps, k => if p.1 = k then some p.2 else getParam ps k

/-- The POST `/message` route handler (sse.rs, lines 50-84): reject with
400 when the `sessionId` query parameter is missing, otherwise build the
request and delegate to `message_handler`. -/
def postMessage (conns : Connections)
    (dispatch : Request → Except McpError Response)
    (query : List (String × String)) (body : JsonRpcRequestWrapper) :
    Except HttpStatus Response × List SseEvent :=
  match getParam query "sessionId" with
  | Option.none => (.error .badRequest, [])
  | some sid => message_handler conns dispatch sid (wrapperToRequest body)

/-- `connection_cleanup::cleanup_dead_connections` (sse.rs, lines
257-277): retain exactly the entries whose channel is not closed. -/
def cleanup_dead_connections (conns : Connections) : Connections :=
  conns.filter fun p => !p.2.is_closed

/-- One registration step, through any of the four registration entry
points of `McpServer`. -/
inductive RegOp where
  | withToolOp (t : McpTool)
  | registerToolOp (t : McpTool)
  | withToolsOp (ts : List McpTool)
  | registerToolsOp (ts : List McpTool)

/-- The tools a registration step passes in, in iteration order. -/
def RegOp.toolList : RegOp → List McpTool
  | .withToolOp t => [t]
  | .registerToolOp t => [t]
  | .withToolsOp ts => ts
  | .registerToolsOp ts => ts

/-- Application of one registration step to the registry. -/
def applyRegOp (r : Registry) : RegOp → Registry
  | .withToolOp t => with_tool r t
  | .registerToolOp t => register_tool r t
  | .withToolsOp ts => with_tools r ts
  | .registerToolsOp ts => register_tools r ts

/-- The registry after a sequence of registrations, starting from the
empty registry of `McpServer::new`. -/
def applyRegOps (ops : List RegOp) : Registry :=
  ops.foldl applyRegOp []

/-- All tools passed to the registration calls, flattened in order. -/
def flattenOps (ops : List RegOp) : List McpTool :=
  (ops.map RegOp.toolList).flatten

/-- The last tool of the list carrying the given name, if any. -/
def lastWith : List McpTool → String → Option McpTool
  | [], _ => none
  | t :: ts, n =>
      match lastWith ts n with
      | some u => some u
      | Option.none => if t.name = n then some t else none

/-- A server with no registered tools, as built by `McpServer::new`. -/
def srvEmpty : McpServer := ⟨"test-server", "1.0.0", []⟩

/-- A tool whose execution always succeeds with one text item. -/
def echoTool : McpTool where
  name := "echo"
  description := "Echo a fixed string"
  input_schema := .obj []
  execute := fun _ => .ok ⟨[⟨"hi"⟩], false⟩

/-- A tool whose execution always fails with the given message. -/
def failingTool (msg : String) : McpTool where
  name := "boom"
  description := "Always fails"
  input_schema := .obj []
  execute := fun _ => .error msg

/-- A server holding only `echoTool`. -/
def srvEcho : McpServer := ⟨"test-server", "1.0.0", [("echo", echoTool)]⟩

/-- A server holding only a failing tool with the given message. -/
def srvBoom (msg : String) : McpServer := ⟨"t", "1", [("boom", failingTool msg)]⟩

/-- A session table with one live session. -/
def connsOpen : Connections := [("sess", ⟨false⟩)]

/-- A session table with one session whose channel's consumer is gone. -/
def connsClosed : Connections := [("sess", ⟨true⟩)]

/-- A `tools/list` method call with id 1. -/
def reqList : Request := .single (.methodCall ⟨"tools/list", .none, .num 1⟩)

/-- A `tools/call` method call naming an unregistered tool. -/
def reqUnknownTool : Request :=
  .single (.methodCall ⟨"tools/call", .map [("name", .str "nosuch")], .num 1⟩)

/-- A POST body whose id is the JSON string "abc". -/
def bodyStrId : JsonRpcRequestWrapper :=
  ⟨"2.0", some (.str "abc"), "tools/list", none⟩

/-- A POST body with the JSON number 7 as id. -/
def bodyNumId : JsonRpcRequestWrapper :=
  ⟨"2.0", some (.num 7), "tools/list", none⟩

/-- A POST body without an id: a notification in the sense of the data
model. -/
def bodyNoId : JsonRpcRequestWrapper :=
  ⟨"2.0", none, "tools/list", none⟩

/-- Pointwise effect of one insert on lookup: the inserted tool is found
under its name, every other name is untouched. -/
theorem lookupTool_insertTool (r : Registry) (t : McpTool) (n : String) :
    lookupTool (insertTool r t) n =
      if t.name = n then some t else lookupTool r n := by
  induction r with
  | nil => rfl
  | cons p r ih =>
      by_cases hp : p.1 = t.name
      · simp only [insertTool, if_pos hp, lookupTool]
        by_cases hn : t.name = n
        · simp [hn]
        · have hpn : ¬ p.1 = n := by rw [hp]; exact hn
          simp [hn, hpn]
      · simp only [insertTool, if_neg hp, lookupTool]
        by_cases hpn : p.1 = n
        · have hn : ¬ t.name = n := by
            intro h; exact hp (hpn.trans h.symm)
          simp [hpn, hn]
        · simp [hpn, ih]

/-- Lookup after a left fold of inserts: the last inserted tool with the
name wins, falling back to the starting registry. -/
theorem lookupTool_foldl (ts : List McpTool) (r : Registry) (n : String) :
    lookupTool (ts.foldl insertTool r) n =
      match lastWith ts n with
      | some u => some u
      | Option.none => lookupTool r n := by
  induction ts generalizing r with
  | nil => rfl
  | cons t ts ih =>
      simp only [List.foldl_cons, lastWith]
      rw [ih]
      cases h : lastWith ts n with
      | some u => rfl
      | none =>
          simp only []
          rw [lookupTool_insertTool]
          by_cases hn : t.name = n <;> simp [hn]

/-- A name has a last occurrence in a tool list exactly when some tool
of the list carries it. -/
theorem lastWith_eq_none (ts : List McpTool) (n : String) :
    lastWith ts n = none ↔ ∀ t ∈ ts, ¬ t.name = n := by
  induction ts with
  | nil => simp [lastWith]
  | cons t ts ih =>
      simp only [lastWith, List.mem_cons]
      cases h : lastWith ts n with
      | some u =>
          simp only []
          constructor
          · intro hc; exact Option.noConfusion hc
          · intro hall
            have hnone : lastWith ts n = none :=
              ih.mpr fun x hx => hall x (Or.inr hx)
            rw [h] at hnone; exact Option.noConfusion hnone
      | none =>
          simp only []
          by_cases hn : t.name = n
          · simp only [if_pos hn]
            constructor
            · intro hc; exact Option.noConfusion hc
            · intro hall
              exact absurd hn (hall t (Or.inl rfl))
          · simp only [if_neg hn]
            constructor
            · intro _ x hx
              rcases hx with rfl | hx
              · exact hn
              · exact (ih.mp h) x hx
            · intro _; trivial

/-- The registry lookup fails exactly when no entry carries the key. -/
theorem lookupTool_eq_none (r : Registry) (n : String) :
    lookupTool r n = none ↔ ∀ p ∈ r, ¬ p.1 = n := by
  induction r with
  | nil => simp [lookupTool]
  | cons p r ih =>
      simp only [lookupTool, List.mem_cons]
      by_cases hp : p.1 = n
      · simp only [if_pos hp]
        constructor
        · intro hc; exact Option.noConfusion hc
        · intro hall; exact absurd hp (hall p (Or.inl rfl))
      · simp only [if_neg hp]
        constructor
        · intro h x hx
          rcases hx with rfl | hx
          · exact hp
          · exact (ih.mp h) x hx
        · intro hall; exact ih.mpr fun x hx => hall x (Or.inr hx)

/-- Keys present after one insert: the old keys plus the inserted
name. -/
theorem mem_keys_insertTool (r : Registry) (t : McpTool) (n : String) :
    n ∈ (insertTool r t).map Prod.fst ↔
      n ∈ r.map Prod.fst ∨ n = t.name := by
  induction r with
  | nil => simp [insertTool]
  | cons p r ih =>
      by_cases hp : p.1 = t.name
      · simp only [insertTool, if_pos hp, List.map_cons, List.mem_cons]
        constructor
        · intro h
          rcases h with rfl | h
          · exact Or.inr rfl
          · exact Or.inl (Or.inr h)
        · intro h
          rcases h with (h | h) | rfl
          · exact Or.inl (hp ▸ h)
          · exact Or.inr h
          · exact Or.inl rfl
      · simp only [insertTool, if_neg hp, List.map_cons, List.mem_cons, ih]
        tauto

/-- One insert preserves distinctness of the registry's keys. -/
theorem nodup_keys_insertTool (r : Registry) (t : McpTool)
    (h : (r.map Prod.fst).Nodup) : ((insertTool r t).map Prod.fst).Nodup := by
  induction r with
  | nil => simp [insertTool]
  | cons p r ih =>
      simp only [List.map_cons, List.nodup_cons] at h
      by_cases hp : p.1 = t.name
      · simp only [insertTool, if_pos hp, List.map_cons, List.nodup_cons]
        exact ⟨hp ▸ h.1, h.2⟩
      · simp only [insertTool, if_neg hp, List.map_cons, List.nodup_cons]
        refine ⟨?_, ih h.2⟩
        rw [mem_keys_insertTool]
        rintro (hm | hm)
        · exact h.1 hm
        · exact hp hm

/-- A left fold of inserts preserves distinctness of the keys. -/
theorem nodup_keys_foldl (ts : List McpTool) (r : Registry)
    (h : (r.map Prod.fst).Nodup) :
    ((ts.foldl insertTool r).map Prod.fst).Nodup := by
  induction ts generalizing r with
  | nil => exact h
  | cons t ts ih => exact ih _ (nodup_keys_insertTool r t h)

/-- Every entry written by an insert is keyed by its tool's name. -/
theorem wf_insertTool (r : Registry) (t : McpTool)
    (h : ∀ p ∈ r, p.1 = p.2.name) :
    ∀ p ∈ insertTool r t, p.1 = p.2.name := by
  induction r with
  | nil => simp [insertTool]
  | cons q r ih =>
      by_cases hq : q.1 = t.name
      · simp only [insertTool, if_pos hq, List.mem_cons]
        rintro p (rfl | hp)
        · rfl
        · exact h p (List.mem_cons_of_mem _ hp)
      · simp only [insertTool, if_neg hq, List.mem_cons]
        rintro p (rfl | hp)
        · exact h p (List.mem_cons_self _ _)
        · exact ih (fun x hx => h x (List.mem_cons_of_mem _ hx)) p hp

/-- A fold of inserts keeps every entry keyed by its tool's name. -/
theorem wf_foldl (ts : List McpTool) (r : Registry)
    (h : ∀ p ∈ r, p.1 = p.2.name) :
    ∀ p ∈ ts.foldl insertTool r, p.1 = p.2.name := by
  induction ts generalizing r with
  | nil => exact h
  | cons t ts ih => exact ih _ (wf_insertTool r t h)

/-- Each registration entry point is a fold of inserts over the tools it
is handed. -/
theorem applyRegOp_eq_foldl (r : Registry) (op : RegOp) :
    applyRegOp r op = op.toolList.foldl insertTool r := by
  cases op <;> rfl

/-- A registration sequence acts like the flattened tool stream folded
through single inserts. -/
theorem foldl_applyRegOp (ops : List RegOp) (r : Registry) :
    ops.foldl applyRegOp r = (flattenOps ops).foldl insertTool r := by
  induction ops generalizing r with
  | nil => rfl
  | cons op ops ih =>
      simp only [List.foldl_cons, flattenOps, List.map_cons, List.flatten_cons,
        List.foldl_append]
      rw [applyRegOp_eq_foldl, ih]
      rfl

/-- Names of the listing entries are exactly the registry keys, because
every entry is keyed by its tool's name. -/
theorem listTools_names (r : Registry) (h : ∀ p ∈ r, p.1 = p.2.name) :
    (listTools r).map Tool.name = r.map Prod.fst := by
  induction r with
  | nil => rfl
  | cons p r ih =>
      simp only [listTools, List.map_cons] at ih ⊢
      rw [ih fun x hx => h x (List.mem_cons_of_mem _ hx)]
      have := h p (List.mem_cons_self _ _)
      simp [this]

/-- Every registry reachable by a registration sequence has its entries
keyed by their tool's name. -/
theorem applyRegOps_wf (ops : List RegOp) :
    ∀ p ∈ applyRegOps ops, p.1 = p.2.name := by
  unfold applyRegOps
  rw [foldl_applyRegOp]
  exact wf_foldl _ _ (by intro p hp; cases hp)

/-- C5.  For every sequence of registrations through `register_tool`,
`with_tool`, `with_tools` or `register_tools`, the registry keeps at
most one tool per name (the `tools/list` names are pairwise distinct),
lookup yields the last registered tool carrying the name, taken across
the flattened registration stream in iteration order, a name is listed
exactly when some registration carried it, and `tools/list` answers with
the success envelope holding exactly those entries. -/
theorem registry_last_write_wins_unique (ops : List RegOp) (n : String)
    (nm ver : String) (id : Id) :
    ((listTools (applyRegOps ops)).map Tool.name).Nodup
  ∧ lookupTool (applyRegOps ops) n = lastWith (flattenOps ops) n
  ∧ ((∃ t, t ∈ flattenOps ops ∧ t.name = n) ↔
       n ∈ (listTools (applyRegOps ops)).map Tool.name)
  ∧ handle_request ⟨nm, ver, applyRegOps ops⟩
      (.single (.methodCall ⟨"tools/list", .none, id⟩)) =
      .ok (.single (.success
        (encodeListToolsResult (listTools (applyRegOps ops))) id)) := by
  have hwf := applyRegOps_wf ops
  have hnames := listTools_names _ hwf
  have hflat : applyRegOps ops = (flattenOps ops).foldl insertTool [] :=
    foldl_applyRegOp ops []
  have hlook : lookupTool (applyRegOps ops) n = lastWith (flattenOps ops) n := by
    rw [hflat, lookupTool_foldl]
    cases lastWith (flattenOps ops) n <;> rfl
  refine ⟨?_, hlook, ?_, ?_⟩
  · rw [hnames, hflat]
    exact nodup_keys_foldl _ _ (by simp)
  · constructor
    · rintro ⟨t, ht, rfl⟩
      rw [hnames]
      by_contra hmem
      have hnone : lookupTool (applyRegOps ops) t.name = none := by
        rw [lookupTool_eq_none]
        intro p hp hkey
        exact hmem (hkey ▸ List.mem_map_of_mem Prod.fst hp)
      rw [hlook, lastWith_eq_none] at hnone
      exact hnone t ht rfl
    · intro hmem
      rw [hnames] at hmem
      obtain ⟨p, hp, rfl⟩ := List.mem_map.mp hmem
      have hsome : ¬ lookupTool (applyRegOps ops) p.1 = none := by
        rw [lookupTool_eq_none]
        intro hall
        exact hall p hp rfl
      rw [hlook] at hsome
      by_contra hno
      push_neg at hno
      exact hsome (by rw [lastWith_eq_none]; intro t ht; exact hno t ht)
  · rfl

/-- Every `Except.ok` branch of the dispatcher is a single envelope
echoing the call's id. -/
theorem dispatchCall_ok_id (s : McpServer) (id : Id) (method : String)
    (params : Params) (r : Response)
    (h : dispatchCall s id method params = .ok r) :
    ∃ out : Output, r = .single out ∧ outputId out = id := by
  unfold dispatchCall at h
  split_ifs at h
  · injection h with h2
    exact ⟨_, h2.symm, rfl⟩
  · injection h with h2
    exact ⟨_, h2.symm, rfl⟩
  · split at h
    · split at h
      · exact Except.noConfusion h
      · split at h
        · exact Except.noConfusion h
        · split at h
          · injection h with h2
            exact ⟨_, h2.symm, rfl⟩
          · injection h with h2
            exact ⟨_, h2.symm, rfl⟩
    · exact Except.noConfusion h
  · injection h with h2
    exact ⟨_, h2.symm, rfl⟩

/-- The dispatcher echoes a method call's id into whatever single
envelope it answers with. -/
theorem handle_request_methodCall_id (s : McpServer) (c : MethodCall)
    (r : Response)
    (h : handle_request s (.single (.methodCall c)) = .ok r) :
    ∃ out : Output, r = .single out ∧ outputId out = c.id :=
  dispatchCall_ok_id s c.id c.method c.params r h

/-- C1 counterexample.  A `tools/call` naming an unregistered tool makes
the dispatcher return the `Err` variant (no envelope at all), and the
transport answers the submission on a live session with an internal
server error instead of an HTTP 200 body carrying a failure envelope. -/
theorem unknown_tool_not_failure_envelope :
    handle_request srvEmpty reqUnknownTool = .error .methodNotFound
  ∧ message_handler connsOpen (handle_request srvEmpty) "sess"
      reqUnknownTool = (.error .internalServerError, []) :=
  ⟨rfl, rfl⟩

/-- C1 as amended.  For every `tools/call` whose parameters parse but
whose tool name matches no registered tool, the dispatcher returns
`Err(McpError::MethodNotFound)` rather than a failure envelope, and the
transport maps the submission on a live session to an internal server
error (HTTP 500); no success envelope is ever produced. -/
theorem unknown_tool_yields_transport_error (s : McpServer)
    (conns : Connections) (sid : String) (ch : Channel) (id : Id)
    (fields : List (String × Json)) (ctr : CallToolRequest)
    (hp : parseCallToolRequest fields = some ctr)
    (ht : lookupTool s.tools ctr.name = none)
    (hc : lookupChannel conns sid = some ch) :
    handle_request s (.single (.methodCall ⟨"tools/call", .map fields, id⟩)) =
      .error .methodNotFound
  ∧ message_handler conns (handle_request s) sid
      (.single (.methodCall ⟨"tools/call", .map fields, id⟩)) =
      (.error .internalServerError, []) := by
  have h1 : handle_request s
      (.single (.methodCall ⟨"tools/call", .map fields, id⟩)) =
      .error .methodNotFound := by
    show dispatchCall s id "tools/call" (.map fields) = _
    unfold dispatchCall
    rw [if_neg (by decide), if_neg (by decide), if_pos rfl]
    simp only [hp, ht]
  refine ⟨h1, ?_⟩
  simp only [message_handler, hc, h1]

/-- C1 witness: the amended statement at a concrete unregistered name on
a live session. -/
theorem unknown_tool_yields_transport_error_witness :
    handle_request srvEmpty reqUnknownTool = .error .methodNotFound
  ∧ message_handler connsOpen (handle_request srvEmpty) "sess"
      reqUnknownTool = (.error .internalServerError, []) :=
  unknown_tool_yields_transport_error srvEmpty connsOpen "sess" ⟨false⟩
    (.num 1) [("name", .str "nosuch")] ⟨"nosuch", none⟩ rfl rfl rfl

/-- C4.  For every `tools/call` naming a registered tool whose execution
succeeds, the success envelope's result carries the tool's content items
wrapped as typed text entries in order, its error flag mirrors the
tool's reported status, and an absent `arguments` field makes the tool
run on the empty JSON object. -/
theorem tools_call_success_result (s : McpServer) (id : Id)
    (fields : List (String × Json)) (ctr : CallToolRequest)
    (tool : McpTool) (result : ToolResult)
    (hp : parseCallToolRequest fields = some ctr)
    (ht : lookupTool s.tools ctr.name = some tool)
    (hx : tool.execute (argsJson ctr.arguments) = .ok result) :
    ∃ j : Json,
      handle_request s (.single (.methodCall ⟨"tools/call", .map fields, id⟩)) =
        .ok (.single (.success j id))
      ∧ jsonField j "content" =
          some (.arr (result.content.map fun c =>
            Json.obj [("type", .str "text"), ("text", .str c.text)]))
      ∧ jsonField j "is_error" = some (.bool result.is_error)
      ∧ argsJson none = .obj [] := by
  refine ⟨encodeCallToolResult
    ⟨result.content.map fun c => Content.text c.text, some result.is_error⟩,
    ?_, ?_, ?_, rfl⟩
  · show dispatchCall s id "tools/call" (.map fields) = _
    unfold dispatchCall
    rw [if_neg (by decide), if_neg (by decide), if_pos rfl]
    simp only [hp, ht, hx]
  · simp only [encodeCallToolResult, jsonField, jsonLookup, if_pos rfl,
      List.map_map, Option.some.injEq, Json.arr.injEq]
    induction result.content with
    | nil => rfl
    | cons c cs ih => simp [Function.comp, encodeContent, ih]
  · simp [encodeCallToolResult, jsonField, jsonLookup]

/-- C4 witness: a registered echo tool called without arguments yields
the wrapped text content and a false error flag. -/
theorem tools_call_success_result_witness :
    ∃ j : Json,
      handle_request srvEcho
        (.single (.methodCall
          ⟨"tools/call", .map [("name", .str "echo")], .num 1⟩)) =
        .ok (.single (.success j (.num 1)))
      ∧ jsonField j "content" =
          some (.arr [Json.obj [("type", .str "text"), ("text", .str "hi")]])
      ∧ jsonField j "is_error" = some (.bool false)
      ∧ argsJson none = .obj [] :=
  tools_call_success_result srvEcho (.num 1) [("name", .str "echo")]
    ⟨"echo", none⟩ echoTool ⟨[⟨"hi"⟩], false⟩ rfl rfl rfl

/-- C7.  Any two `tools/call` executions that fail, whatever the two
internal error messages, are answered with the identical failure
envelope: the fixed server error code -32000 with its fixed description
and no data, so nothing of the tool's message reaches the wire. -/
theorem tool_error_fixed_envelope (s₁ s₂ : McpServer) (id : Id)
    (f₁ f₂ : List (String × Json)) (c₁ c₂ : CallToolRequest)
    (t₁ t₂ : McpTool) (e₁ e₂ : String)
    (hp₁ : parseCallToolRequest f₁ = some c₁)
    (ht₁ : lookupTool s₁.tools c₁.name = some t₁)
    (hx₁ : t₁.execute (argsJson c₁.arguments) = .error e₁)
    (hp₂ : parseCallToolRequest f₂ = some c₂)
    (ht₂ : lookupTool s₂.tools c₂.name = some t₂)
    (hx₂ : t₂.execute (argsJson c₂.arguments) = .error e₂) :
    handle_request s₁ (.single (.methodCall ⟨"tools/call", .map f₁, id⟩)) =
      .ok (.single (.failure (JsonRpcError.new (.serverError (-32000))) id))
  ∧ handle_request s₁ (.single (.methodCall ⟨"tools/call", .map f₁, id⟩)) =
      handle_request s₂ (.single (.methodCall ⟨"tools/call", .map f₂, id⟩)) := by
  have mk : ∀ (s : McpServer) (f : List (String × Json))
      (c : CallToolRequest) (t : McpTool) (e : String),
      parseCallToolRequest f = some c →
      lookupTool s.tools c.name = some t →
      t.execute (argsJson c.arguments) = .error e →
      handle_request s (.single (.methodCall ⟨"tools/call", .map f, id⟩)) =
        .ok (.single (.failure (JsonRpcError.new (.serverError (-32000))) id)) := by
    intro s f c t e hp ht hx
    show dispatchCall s id "tools/call" (.map f) = _
    unfold dispatchCall
    rw [if_neg (by decide), if_neg (by decide), if_pos rfl]
    simp only [hp, ht, hx]
  have h1 := mk s₁ f₁ c₁ t₁ e₁ hp₁ ht₁ hx₁
  have h2 := mk s₂ f₂ c₂ t₂ e₂ hp₂ ht₂ hx₂
  exact ⟨h1, h1.trans h2.symm⟩

/-- C7 witness: two tools failing with the distinct messages "a" and "b"
produce the same fixed failure envelope. -/
theorem tool_error_fixed_envelope_witness :
    handle_request (srvBoom "a")
      (.single (.methodCall ⟨"tools/call", .map [("name", .str "boom")], .num 1⟩)) =
      .ok (.single (.failure (JsonRpcError.new (.serverError (-32000))) (.num 1)))
  ∧ handle_request (srvBoom "a")
      (.single (.methodCall ⟨"tools/call", .map [("name", .str "boom")], .num 1⟩)) =
      handle_request (srvBoom "b")
        (.single (.methodCall ⟨"tools/call", .map [("name", .str "boom")], .num 1⟩)) :=
  tool_error_fixed_envelope (srvBoom "a") (srvBoom "b") (.num 1)
    [("name", .str "boom")] [("name", .str "boom")]
    ⟨"boom", none⟩ ⟨"boom", none⟩ (failingTool "a") (failingTool "b") "a" "b"
    rfl rfl rfl rfl rfl rfl

/-- C10.  Every decoded request that is neither a single method call nor
a single notification (a batch, or an invalid single call) is answered
with `Ok`: a failure envelope carrying the invalid-request error and id
0, never an `Err`; the transport therefore answers a live-session
submission of it with the envelope (HTTP 200) and pushes nothing. -/
theorem non_single_call_invalid_request_envelope (s : McpServer)
    (conns : Connections) (sid : String) (ch : Channel) (req : Request)
    (hm : ∀ c : MethodCall, ¬ req = .single (.methodCall c))
    (hn : ∀ n : Notification, ¬ req = .single (.notification n))
    (hc : lookupChannel conns sid = some ch) :
    handle_request s req =
      .ok (.single (.failure (McpError.intoJsonRpc .invalidRequest) (.num 0)))
  ∧ message_handler conns (handle_request s) sid req =
      (.ok (.single (.failure (McpError.intoJsonRpc .invalidRequest) (.num 0))), []) := by
  have h1 : handle_request s req =
      .ok (.single (.failure (McpError.intoJsonRpc .invalidRequest) (.num 0))) := by
    cases req with
    | single c =>
        cases c with
        | methodCall c => exact absurd rfl (hm c)
        | notification n => exact absurd rfl (hn n)
        | invalid i => rfl
    | batch cs => rfl
  refine ⟨h1, ?_⟩
  simp [message_handler, hc, h1, isSingleSuccess]

/-- C10 witness: the empty batch on a live session. -/
theorem non_single_call_invalid_request_envelope_witness :
    handle_request srvEmpty (.batch []) =
      .ok (.single (.failure (McpError.intoJsonRpc .invalidRequest) (.num 0)))
  ∧ message_handler connsOpen (handle_request srvEmpty) "sess" (.batch []) =
      (.ok (.single (.failure (McpError.intoJsonRpc .invalidRequest) (.num 0))), []) :=
  non_single_call_invalid_request_envelope srvEmpty connsOpen "sess" ⟨false⟩
    (.batch []) (fun _ h => Request.noConfusion h)
    (fun _ h => Request.noConfusion h) rfl

/-- C6.  A submission without a `sessionId` query parameter is rejected
with 400, a submission naming a session that is not in the table is
rejected with 404, and in both cases the result is the same whatever
dispatcher is plugged in: the dispatcher is never consulted. -/
theorem missing_or_unknown_session_rejected (conns : Connections)
    (dispatch dispatch₂ : Request → Except McpError Response)
    (query : List (String × String)) (body : JsonRpcRequestWrapper)
    (sid : String) (req : Request) :
    (getParam query "sessionId" = none →
       postMessage conns dispatch query body = (.error .badRequest, [])
       ∧ postMessage conns dispatch query body =
           postMessage conns dispatch₂ query body)
  ∧ (lookupChannel conns sid = none →
       message_handler conns dispatch sid req = (.error .notFound, [])
       ∧ message_handler conns dispatch sid req =
           message_handler conns dispatch₂ sid req) := by
  constructor
  · intro hq
    have h1 : postMessage conns dispatch query body =
        (.error .badRequest, []) := by
      simp only [postMessage, hq]
    have h2 : postMessage conns dispatch₂ query body =
        (.error .badRequest, []) := by
      simp only [postMessage, hq]
    exact ⟨h1, h1.trans h2.symm⟩
  · intro hs
    have h1 : message_handler conns dispatch sid req =
        (.error .notFound, []) := by
      simp only [message_handler, hs]
    have h2 : message_handler conns dispatch₂ sid req =
        (.error .notFound, []) := by
      simp only [message_handler, hs]
    exact ⟨h1, h1.trans h2.symm⟩

/-- C6 witness: an empty query string and an unknown session id, with
two different dispatchers plugged in. -/
theorem missing_or_unknown_session_rejected_witness :
    (postMessage connsOpen (handle_request srvEmpty) [] bodyNumId =
       (.error .badRequest, [])
     ∧ postMessage connsOpen (handle_request srvEmpty) [] bodyNumId =
         postMessage connsOpen (handle_request srvEcho) [] bodyNumId)
  ∧ (message_handler connsOpen (handle_request srvEmpty) "ghost" reqList =
       (.error .notFound, [])
     ∧ message_handler connsOpen (handle_request srvEmpty) "ghost" reqList =
         message_handler connsOpen (handle_request srvEcho) "ghost" reqList) :=
  ⟨(missing_or_unknown_session_rejected connsOpen (handle_request srvEmpty)
      (handle_request srvEcho) [] bodyNumId "ghost" reqList).1 rfl,
   (missing_or_unknown_session_rejected connsOpen (handle_request srvEmpty)
      (handle_request srvEcho) [] bodyNumId "ghost" reqList).2 rfl⟩

/-- After the reaper's filter, a session id all of whose table entries
are closed no longer resolves. -/
theorem lookupChannel_cleanup (conns : Connections) (sid : String)
    (h : ∀ ch : Channel, (sid, ch) ∈ conns → ch.is_closed = true) :
    lookupChannel (cleanup_dead_connections conns) sid = none := by
  induction conns with
  | nil => rfl
  | cons p ps ih =>
      simp only [cleanup_dead_connections, List.filter] at ih ⊢
      cases hcl : p.2.is_closed with
      | true =>
          simp only [hcl, Bool.not_true]
          exact ih fun ch hm => h ch (List.mem_cons_of_mem _ hm)
      | false =>
          simp only [hcl, Bool.not_false, lookupChannel]
          have hp : ¬ p.1 = sid := by
            intro hk
            have := h p.2 (by rw [← hk]; exact List.mem_cons_self _ _)
            rw [hcl] at this; exact Bool.noConfusion this
          rw [if_neg hp]
          exact ih fun ch hm => h ch (List.mem_cons_of_mem _ hm)

/-- C9.  One reaper pass keeps exactly the entries whose channel is
still open and drops every closed one; a second pass changes nothing
(idempotent eviction); and once every entry of a session id is closed
and a pass has run, submissions against that id are rejected with 404,
whatever dispatcher and request. -/
theorem reaper_removes_closed_keeps_open (conns : Connections)
    (sid : String) (dispatch : Request → Except McpError Response)
    (req : Request) :
    (∀ e : String × Channel,
       e ∈ cleanup_dead_connections conns ↔
         e ∈ conns ∧ e.2.is_closed = false)
  ∧ cleanup_dead_connections (cleanup_dead_connections conns) =
      cleanup_dead_connections conns
  ∧ ((∀ ch : Channel, (sid, ch) ∈ conns → ch.is_closed = true) →
       message_handler (cleanup_dead_connections conns) dispatch sid req =
         (.error .notFound, [])) := by
  refine ⟨?_, ?_, ?_⟩
  · intro e
    simp [cleanup_dead_connections, List.mem_filter]
  · simp only [cleanup_dead_connections, List.filter_filter]
    congr 1
    funext p
    cases p.2.is_closed <;> rfl
  · intro h
    simp only [message_handler, lookupChannel_cleanup conns sid h]

/-- C9 witness: a table with one closed and one open session; the closed
one is rejected after the pass. -/
theorem reaper_removes_closed_keeps_open_witness :
    message_handler
      (cleanup_dead_connections [("a", ⟨true⟩), ("b", ⟨false⟩)])
      (handle_request srvEmpty) "a" reqList = (.error .notFound, []) :=
  (reaper_removes_closed_keeps_open [("a", ⟨true⟩), ("b", ⟨false⟩)] "a"
      (handle_request srvEmpty) reqList).2.2
    (by
      intro ch hm
      simp only [List.mem_cons, List.not_mem_nil, or_false] at hm
      rcases hm with hm | hm
      · injection hm with h1 h2
        rw [h2]
      · injection hm with h1 h2
        exact absurd h1 (by decide))

/-- C2 as amended.  On a live session, a "message" event lands on the
session's channel exactly when the dispatcher produced a single success
envelope and the channel's consumer is still there, and whatever is
pushed is such a full success envelope; failure envelopes are never
pushed.  The placeholder success envelopes the dispatcher produces for
notifications are success envelopes, hence pushed like any other. -/
theorem push_iff_single_success (conns : Connections)
    (dispatch : Request → Except McpError Response)
    (sid : String) (req : Request) (ch : Channel)
    (hc : lookupChannel conns sid = some ch) :
    (¬ (message_handler conns dispatch sid req).2 = []
       ↔ ∃ r : Response, dispatch req = .ok r ∧ isSingleSuccess r = true
           ∧ ch.is_closed = false)
  ∧ (∀ e : SseEvent, e ∈ (message_handler conns dispatch sid req).2 →
       ∃ r : Response, dispatch req = .ok r ∧ isSingleSuccess r = true
         ∧ e = ⟨"message", r⟩) := by
  simp only [message_handler, hc]
  cases hd : dispatch req with
  | error e => simp
  | ok r =>
      cases hs : isSingleSuccess r with
      | false => simp [hs]
      | true =>
          cases hcl : ch.is_closed with
          | true => simp [hs, hcl]
          | false => simp [hs, hcl]

/-- C2 witness: on a live session, a plain `tools/list` call does get
its success envelope pushed. -/
theorem push_iff_single_success_witness :
    ¬ (message_handler connsOpen (handle_request srvEmpty) "sess"
        reqList).2 = [] :=
  (push_iff_single_success connsOpen (handle_request srvEmpty) "sess"
      reqList ⟨false⟩ rfl).1.mpr
    ⟨.single (.success (encodeListToolsResult []) (.num 1)), rfl, rfl, rfl⟩

/-- C2 counterexample.  Responses to notifications are pushed onto the
stream: a raw notification gets its placeholder success envelope
pushed, and a submission without an id (a notification in the data
model's sense) is converted to a method call whose success envelope is
pushed as well. -/
theorem notification_response_pushed :
    (message_handler connsOpen (handle_request srvEmpty) "sess"
       (.single (.notification ⟨"notifications/initialized", .none⟩))).2 =
      [⟨"message", .single (.success (.obj []) (.num 0))⟩]
  ∧ (postMessage connsOpen (handle_request srvEmpty)
       [("sessionId", "sess")] bodyNoId).2 =
      [⟨"message", .single (.success (encodeListToolsResult []) .null)⟩] :=
  ⟨rfl, rfl⟩

/-- C3 as amended.  A method call submitted on a live session whose
dispatch does not error and whose push (if attempted) succeeds is
answered with exactly one response envelope, whose id equals the id of
the constructed request: the submitted id itself when it was absent
(null) or a 64-bit non-negative integer, but the coercion
`as_u64().unwrap_or(0)` collapses any other submitted id to 0. -/
theorem method_call_response_id (s : McpServer) (conns : Connections)
    (query : List (String × String)) (body : JsonRpcRequestWrapper)
    (sid : String) (ch : Channel) (resp : Response)
    (hq : getParam query "sessionId" = some sid)
    (hc : lookupChannel conns sid = some ch)
    (hr : handle_request s (wrapperToRequest body) = .ok resp)
    (hpush : isSingleSuccess resp = true → ch.is_closed = false) :
    ∃ out : Output, resp = .single out
      ∧ (postMessage conns (handle_request s) query body).1 = .ok (.single out)
      ∧ outputId out = wrapperId body.id
      ∧ (body.id = none → wrapperId body.id = .null)
      ∧ (∀ k : Nat, body.id = some (.num (k : Int)) → (k : Int) < 2 ^ 64 →
           wrapperId body.id = .num k) := by
  obtain ⟨out, hout, hid⟩ :=
    handle_request_methodCall_id s
      ⟨body.method, wrapperParams body.params, wrapperId body.id⟩ resp hr
  subst hout
  refine ⟨out, rfl, ?_, hid, ?_, ?_⟩
  · simp only [postMessage, hq, message_handler, hc, hr]
    cases hs : isSingleSuccess (.single out) with
    | true => simp [hpush hs]
    | false => simp
  · intro h; rw [h]; rfl
  · intro k hk hlt
    rw [hk]
    simp only [wrapperId, Json.asU64]
    rw [if_pos ⟨Int.natCast_nonneg k, hlt⟩]
    simp

/-- C3 witness: a numeric id 7 flows unchanged from the submitted body
into the single response envelope. -/
theorem method_call_response_id_witness :
    ∃ out : Output,
      (.single (.success (encodeListToolsResult []) (.num 7)) : Response) =
        .single out
      ∧ (postMessage connsOpen (handle_request srvEmpty)
           [("sessionId", "sess")] bodyNumId).1 = .ok (.single out)
      ∧ outputId out = wrapperId bodyNumId.id
      ∧ (bodyNumId.id = none → wrapperId bodyNumId.id = .null)
      ∧ (∀ k : Nat, bodyNumId.id = some (.num (k : Int)) →
           (k : Int) < 2 ^ 64 → wrapperId bodyNumId.id = .num k) :=
  method_call_response_id srvEmpty connsOpen [("sessionId", "sess")]
    bodyNumId "sess" ⟨false⟩
    (.single (.success (encodeListToolsResult []) (.num 7)))
    rfl rfl rfl (fun _ => rfl)

/-- C3 counterexample.  The legal JSON-RPC string id "abc" is coerced to
0, so the produced envelope's id does not equal the id of the request. -/
theorem string_id_coerced_to_zero :
    bodyStrId.id = some (.str "abc")
  ∧ (postMessage connsOpen (handle_request srvEmpty)
       [("sessionId", "sess")] bodyStrId).1 =
      .ok (.single (.success (encodeListToolsResult []) (.num 0)))
  ∧ ¬ (Id.num 0 = Id.str "abc") :=
  ⟨rfl, rfl, by decide⟩

/-- C8 as amended.  A submission on a live session returns the
dispatcher's response body whenever no push is attempted (failure
envelope) or the attempted push succeeds; when the push is attempted on
a channel whose consumer is gone, the submission instead surfaces an
internal server error. -/
theorem submission_returns_dispatcher_body (conns : Connections)
    (dispatch : Request → Except McpError Response)
    (sid : String) (ch : Channel) (req : Request) (resp : Response)
    (hc : lookupChannel conns sid = some ch)
    (hr : dispatch req = .ok resp)
    (hpush : isSingleSuccess resp = true → ch.is_closed = false) :
    (message_handler conns dispatch sid req).1 = .ok resp := by
  simp only [message_handler, hc, hr]
  cases hs : isSingleSuccess resp with
  | true => simp [hpush hs]
  | false => simp

/-- C8 witness: a failure envelope (unknown method) is not pushed and is
still returned as the submission's body. -/
theorem submission_returns_dispatcher_body_witness :
    (message_handler connsOpen (handle_request srvEmpty) "sess"
       (.single (.methodCall ⟨"nope", .none, .num 2⟩))).1 =
      .ok (.single (.failure JsonRpcError.method_not_found (.num 2))) :=
  submission_returns_dispatcher_body connsOpen (handle_request srvEmpty)
    "sess" ⟨false⟩ (.single (.methodCall ⟨"nope", .none, .num 2⟩))
    (.single (.failure JsonRpcError.method_not_found (.num 2)))
    rfl rfl (fun h => Bool.noConfusion h)

/-- C8 counterexample.  On a session still in the table but whose
channel's consumer is gone, the dispatcher produces a success body, yet
the submission returns an internal server error instead of that body:
the result does depend on whether the push succeeded. -/
theorem closed_channel_send_failure_not_body :
    lookupChannel connsClosed "sess" = some ⟨true⟩
  ∧ handle_request srvEmpty reqList =
      .ok (.single (.success (encodeListToolsResult []) (.num 1)))
  ∧ (message_handler connsClosed (handle_request srvEmpty) "sess"
       reqList).1 = .error .internalServerError :=
  ⟨rfl, rfl, rfl⟩

end Mcp
